import Mathlib

/-!
Verification of the Lite2D render-layer subsystem (`src/core/Layer.ts`).

The embedding models the drawing context (`CanvasRenderingContext2D`) as a
transform, a stack of saved transforms, and an observation trace of draw
invocations.  `Layer.render` is translated directly from the source; the
external collaborators (the `GameObject` draw hook, `Camera.applyTransform`,
and the child ordering maintained by `GameObject.addChild`) are not part of
the reviewed sources and are modelled from the spec, as marked on each
definition.
-/

namespace Lite2D

/-- A 2D affine transform, in the canvas `(a, b, c, d, e, f)` convention:
the matrix `[[a, c, e], [b, d, f]]`. -/
structure AffineT where
  a : Int
  b : Int
  c : Int
  d : Int
  e : Int
  f : Int
deriving DecidableEq, Repr

/-- The identity transform (canvas `setTransform(1, 0, 0, 1, 0, 0)`). -/
def AffineT.idT : AffineT := ⟨1, 0, 0, 1, 0, 0⟩

/-- Matrix product of two affine transforms, `m` applied after `n` has been
composed onto it (canvas `transform()` post-multiplies the current matrix). -/
def AffineT.comp (m n : AffineT) : AffineT :=
  ⟨m.a * n.a + m.c * n.b, m.b * n.a + m.d * n.b,
   m.a * n.c + m.c * n.d, m.b * n.c + m.d * n.d,
   m.a * n.e + m.c * n.f + m.e, m.b * n.e + m.d * n.f + m.f⟩

/-- Modelled from the spec: `Camera` (`src/rendering/Camera.ts` is not among
the reviewed sources).  The spec needs only that a camera holds state
"sufficient to compute an affine transform", so the model keeps exactly that
computed transform. -/
structure Camera where
  t : AffineT
deriving DecidableEq, Repr

/-- An observation recorded on the drawing context's trace:
`invoke name t` marks the call `child.render(ctx)` made by a parent's
traversal loop while the context transform is `t`; `draw name t` marks a
leaf node's own drawing at transform `t`. -/
inductive Ev where
  | invoke (name : String) (t : AffineT)
  | draw (name : String) (t : AffineT)
deriving DecidableEq, Repr

/-- The drawing context: the current transform, the stack of transforms
pushed by `ctx.save()`, and the trace of observations. -/
structure Ctx where
  transform : AffineT
  saved : List AffineT
  trace : List Ev
deriving DecidableEq, Repr

/-- `ctx.save()`: push the current transform onto the state stack. -/
def Ctx.save (ctx : Ctx) : Ctx := { ctx with saved := ctx.transform :: ctx.saved }

/-- `ctx.restore()`: pop the last saved transform; with an empty stack the
call does nothing (per the canvas specification). -/
def Ctx.restoreT (ctx : Ctx) : Ctx :=
  match ctx.saved with
  | [] => ctx
  | t :: rest => { ctx with transform := t, saved := rest }

/-- Append one observation to the context's trace. -/
def Ctx.mark (ctx : Ctx) (e : Ev) : Ctx := { ctx with trace := ctx.trace ++ [e] }

/-- Modelled from the spec: `Camera.applyTransform(ctx)` "mutates the
context's current transform in place", composably with save/restore; the
canvas transform calls it makes post-multiply the current matrix. -/
def Camera.applyTransform (c : Camera) (ctx : Ctx) : Ctx :=
  { ctx with transform := AffineT.comp ctx.transform c.t }

/-- A scene-graph node.  `layer` carries the fields of `Layer`
(`GameObject` identity fields plus `_camera` and the owned children, in
declaration order: name, active, sortingOrder, camera, children).
`obj` is a plain `GameObject` leaf; its `throws` flag says whether its draw
hook raises an error, which the spec's error-handling section allows for
any descendant draw call. -/
inductive Node where
  | obj (name : String) (active : Bool) (sortingOrder : Int) (throws : Bool)
  | layer (name : String) (active : Bool) (sortingOrder : Int)
      (camera : Option Camera) (children : List Node)

/-- The `active` flag of a node (`GameObject.active`). -/
def Node.active : Node → Bool
  | .obj _ act _ _ => act
  | .layer _ act _ _ _ => act

/-- The name of a node (`GameObject.name`). -/
def Node.name : Node → String
  | .obj nm _ _ _ => nm
  | .layer nm _ _ _ _ => nm

/-- The `sortingOrder` draw-order key of a node (`GameObject.sortingOrder`). -/
def Node.sortingOrder : Node → Int
  | .obj _ _ so _ => so
  | .layer _ _ so _ _ => so

/-- The owned children of a node; a leaf owns none. -/
def Node.childrenOf : Node → List Node
  | .obj _ _ _ _ => []
  | .layer _ _ _ _ ch => ch

/-- The `get camera()` accessor of `Layer`: returns the `_camera` field. -/
def Node.camera : Node → Option Camera
  | .obj _ _ _ _ => none
  | .layer _ _ _ cam _ => cam

/-- The `set camera(value)` accessor of `Layer`: writes the `_camera`
field and nothing else. -/
def Node.setCamera : Node → Option Camera → Node
  | .obj nm act so thr, _ => .obj nm act so thr
  | .layer nm act so _ ch, v => .layer nm act so v ch

/-- The body of `if (this._camera) { this._camera.applyTransform(ctx); }`:
apply the bound camera's transform, or leave the context alone in
screen-space mode. -/
def applyCamera : Option Camera → Ctx → Ctx
  | some cm, ctx => cm.applyTransform ctx
  | none, ctx => ctx

mutual

/-- `Layer.render(ctx)` translated from `src/core/Layer.ts`:
bail out when inactive; `ctx.save()`; apply the camera if bound; run the
children loop; `ctx.restore()` — but, exactly as in the source, the
restore is only reached when the loop returns normally, since the source
has no `try`/`finally` around the loop.  The `Bool` result is `true` for
normal return and `false` for an error propagating out of a child's draw
(in which case the context is returned as the error left it).
A leaf `obj`'s draw is modelled from the spec ("a per-node draw hook
invoked once per active node per traversal pass, given the current drawing
context"): it records its drawing at the current transform, or raises. -/
def Node.render : Node → Ctx → Ctx × Bool
  | .obj nm _ _ thr, ctx =>
      if thr then (ctx, false)
      else (ctx.mark (Ev.draw nm ctx.transform), true)
  | .layer _ act _ cam children, ctx =>
      if act then
        let r := renderList children (applyCamera cam ctx.save)
        if r.2 then (r.1.restoreT, true) else r
      else (ctx, true)

/-- The children loop of `Layer.render`:
`for (const child of this.children) { if (child.active) child.render(ctx); }`.
Each call `child.render(ctx)` made for an active child is marked on the
trace with the transform the child observes; an error from a child
propagates immediately, abandoning the rest of the loop. -/
def renderList : List Node → Ctx → Ctx × Bool
  | [], ctx => (ctx, true)
  | child :: rest, ctx =>
      if child.active then
        let r := child.render (ctx.mark (Ev.invoke child.name ctx.transform))
        if r.2 then renderList rest r.1 else r
      else renderList rest ctx

end

/-- `Layer.onRender(_ctx)` translated from the source: the body is empty,
so the receiver and the context are both returned unchanged. -/
def Node.onRender (l : Node) (ctx : Ctx) : Node × Ctx := (l, ctx)

/-- The `Layer` constructor `constructor(name, camera)`: `super(name)`
initialises the `GameObject` part (modelled from the spec: a fresh node is
active, has draw-order key 0 and owns no children), then `_camera` is set
to the argument. -/
def mkLayer (name : String) (camera : Option Camera) : Node :=
  Node.layer name true 0 camera []

/-- `new Layer(name)` with the camera argument omitted: the declaration
`camera: Camera | null = null` makes the omitted argument default to
`null`. -/
def mkLayerOmitted (name : String) : Node := mkLayer name none

/-- Modelled from the spec: `GameObject.addChild` keeps the `children`
collection "stable-sorted by drawOrder" with "ties broken by insertion
order", so a new child is inserted after every child whose key is less
than or equal to its own. -/
def insertChild (c : Node) : List Node → List Node
  | [] => [c]
  | x :: rest =>
      if x.sortingOrder ≤ c.sortingOrder then x :: insertChild c rest
      else c :: x :: rest

/-- `parent.addChild(child)` acting on the parent's children collection. -/
def addChild (l : List Node) (c : Node) : List Node := insertChild c l

/-- The children collection that results from adding the given nodes, in
order, to an initially childless parent. -/
def buildChildren (adds : List Node) : List Node := adds.foldl addChild []


theorem render_obj_eq (nm : String) (act : Bool) (so : Int) (thr : Bool) (ctx : Ctx) :
    (Node.obj nm act so thr).render ctx =
      if thr then (ctx, false) else (ctx.mark (Ev.draw nm ctx.transform), true) := rfl

theorem render_layer_eq (nm : String) (act : Bool) (so : Int) (cam : Option Camera)
    (children : List Node) (ctx : Ctx) :
    (Node.layer nm act so cam children).render ctx =
      if act then
        (if (renderList children (applyCamera cam ctx.save)).2 then
           ((renderList children (applyCamera cam ctx.save)).1.restoreT, true)
         else renderList children (applyCamera cam ctx.save))
      else (ctx, true) := rfl

theorem renderList_nil_eq (ctx : Ctx) : renderList [] ctx = (ctx, true) := rfl

theorem renderList_cons_eq (child : Node) (rest : List Node) (ctx : Ctx) :
    renderList (child :: rest) ctx =
      if child.active then
        (if (child.render (ctx.mark (Ev.invoke child.name ctx.transform))).2 then
           renderList rest (child.render (ctx.mark (Ev.invoke child.name ctx.transform))).1
         else child.render (ctx.mark (Ev.invoke child.name ctx.transform)))
      else renderList rest ctx := rfl

theorem Ctx.restoreT_of_saved (c : Ctx) (t : AffineT) (s : List AffineT)
    (h : c.saved = t :: s) :
    c.restoreT = { transform := t, saved := s, trace := c.trace } := by
  simp [Ctx.restoreT, h]

theorem Ctx.restoreT_trace (c : Ctx) : c.restoreT.trace = c.trace := by
  cases h : c.saved <;> simp [Ctx.restoreT, h]

theorem Ctx.save_saved (ctx : Ctx) : ctx.save.saved = ctx.transform :: ctx.saved := rfl

theorem Ctx.mark_transform (ctx : Ctx) (e : Ev) : (ctx.mark e).transform = ctx.transform := rfl

theorem Ctx.mark_saved (ctx : Ctx) (e : Ev) : (ctx.mark e).saved = ctx.saved := rfl

theorem applyCamera_saved (cam : Option Camera) (ctx : Ctx) :
    (applyCamera cam ctx).saved = ctx.saved := by
  cases cam <;> simp [applyCamera, Camera.applyTransform]

theorem applyCamera_trace (cam : Option Camera) (ctx : Ctx) :
    (applyCamera cam ctx).trace = ctx.trace := by
  cases cam <;> simp [applyCamera, Camera.applyTransform]

mutual

theorem render_ok_preserves (n : Node) (ctx : Ctx)
    (h : (n.render ctx).2 = true) :
    (n.render ctx).1.transform = ctx.transform ∧ (n.render ctx).1.saved = ctx.saved := by
  cases n with
  | obj nm act so thr =>
      by_cases hthr : thr = true
      · rw [render_obj_eq, if_pos hthr] at h; simp at h
      · rw [render_obj_eq, if_neg hthr]; exact ⟨rfl, rfl⟩
  | layer nm act so cam children =>
      by_cases hact : act = true
      · rw [render_layer_eq, if_pos hact] at h ⊢
        by_cases hr : (renderList children (applyCamera cam ctx.save)).2 = true
        · have hp := renderList_ok_preserves children (applyCamera cam ctx.save) hr
          rw [applyCamera_saved, Ctx.save_saved] at hp
          have hres := Ctx.restoreT_of_saved _ _ _ hp.2
          rw [if_pos hr, hres]
          exact ⟨rfl, rfl⟩
        · rw [if_neg hr] at h
          exact absurd h hr
      · rw [render_layer_eq, if_neg hact]
        exact ⟨rfl, rfl⟩

theorem renderList_ok_preserves (l : List Node) (ctx : Ctx)
    (h : (renderList l ctx).2 = true) :
    (renderList l ctx).1.transform = ctx.transform ∧ (renderList l ctx).1.saved = ctx.saved := by
  cases l with
  | nil => rw [renderList_nil_eq]; exact ⟨rfl, rfl⟩
  | cons child rest =>
      rw [renderList_cons_eq] at h ⊢
      by_cases hact : child.active = true
      · rw [if_pos hact] at h ⊢
        by_cases hr : (child.render (ctx.mark (Ev.invoke child.name ctx.transform))).2 = true
        · rw [if_pos hr] at h ⊢
          have h1 := render_ok_preserves child (ctx.mark (Ev.invoke child.name ctx.transform)) hr
          rw [Ctx.mark_transform, Ctx.mark_saved] at h1
          have h2 := renderList_ok_preserves rest _ h
          rw [h2.1, h2.2, h1.1, h1.2]
          exact ⟨rfl, rfl⟩
        · rw [if_neg hr] at h
          exact absurd h hr
      · rw [if_neg hact] at h ⊢
        exact renderList_ok_preserves rest ctx h

end

/-- The transform a bound camera leaves on the context, as a function of
the transform it finds there. -/
def camApp : Option Camera → AffineT → AffineT
  | some cm, t => AffineT.comp t cm.t
  | none, t => t

theorem applyCamera_mk (cam : Option Camera) (t : AffineT) (s : List AffineT) (tr : List Ev) :
    applyCamera cam ⟨t, s, tr⟩ = ⟨camApp cam t, s, tr⟩ := by
  cases cam <;> rfl

/-- Final transform of a node's render run started on an empty stack and
trace; the frame theorem below shows a run from any context is this run
shifted by the ambient stack and trace. -/
def Node.outT (n : Node) (t : AffineT) : AffineT := (n.render ⟨t, [], []⟩).1.transform

/-- Final saved stack of a node's render run started on an empty stack. -/
def Node.outSaved (n : Node) (t : AffineT) : List AffineT := (n.render ⟨t, [], []⟩).1.saved

/-- The observations a node's render run emits, given its entry transform. -/
def Node.events (n : Node) (t : AffineT) : List Ev := (n.render ⟨t, [], []⟩).1.trace

/-- Whether a node's render run returns normally, given its entry transform. -/
def Node.ok (n : Node) (t : AffineT) : Bool := (n.render ⟨t, [], []⟩).2

/-- Final transform of a children-loop run started on an empty stack. -/
def listOutT (l : List Node) (t : AffineT) : AffineT := (renderList l ⟨t, [], []⟩).1.transform

/-- Final saved stack of a children-loop run started on an empty stack. -/
def listOutSaved (l : List Node) (t : AffineT) : List AffineT := (renderList l ⟨t, [], []⟩).1.saved

/-- The observations a children-loop run emits, given its entry transform. -/
def listEvents (l : List Node) (t : AffineT) : List Ev := (renderList l ⟨t, [], []⟩).1.trace

/-- Whether a children-loop run returns normally, given its entry transform. -/
def listOk (l : List Node) (t : AffineT) : Bool := (renderList l ⟨t, [], []⟩).2

mutual

theorem render_frame (n : Node) (t : AffineT) (s : List AffineT) (tr : List Ev) :
    n.render ⟨t, s, tr⟩ = (⟨n.outT t, n.outSaved t ++ s, tr ++ n.events t⟩, n.ok t) := by
  cases n with
  | obj nm act so thr =>
      simp only [Node.outT, Node.outSaved, Node.events, Node.ok]
      by_cases hthr : thr = true
      · rw [render_obj_eq, render_obj_eq, if_pos hthr, if_pos hthr]
        simp [Ctx.mark]
      · rw [render_obj_eq, render_obj_eq, if_neg hthr, if_neg hthr]
        simp [Ctx.mark]
  | layer nm act so cam children =>
      simp only [Node.outT, Node.outSaved, Node.events, Node.ok]
      by_cases hact : act = true
      · rw [render_layer_eq, render_layer_eq, if_pos hact, if_pos hact]
        simp only [Ctx.save, applyCamera_mk]
        rw [renderList_frame children (camApp cam t) (t :: s) tr,
            renderList_frame children (camApp cam t) [t] []]
        by_cases hok : listOk children (camApp cam t) = true
        · have hp := renderList_ok_preserves children ⟨camApp cam t, [], []⟩ hok
          have hS : listOutSaved children (camApp cam t) = [] := hp.2
          rw [hok, hS]
          simp [Ctx.restoreT]
        · rw [Bool.not_eq_true] at hok
          rw [hok]
          simp
      · rw [render_layer_eq, render_layer_eq, if_neg hact, if_neg hact]
        simp

theorem renderList_frame (l : List Node) (t : AffineT) (s : List AffineT) (tr : List Ev) :
    renderList l ⟨t, s, tr⟩ = (⟨listOutT l t, listOutSaved l t ++ s, tr ++ listEvents l t⟩, listOk l t) := by
  cases l with
  | nil =>
      simp only [listOutT, listOutSaved, listEvents, listOk]
      rw [renderList_nil_eq, renderList_nil_eq]
      simp
  | cons child rest =>
      simp only [listOutT, listOutSaved, listEvents, listOk]
      rw [renderList_cons_eq, renderList_cons_eq]
      by_cases hact : child.active = true
      · rw [if_pos hact, if_pos hact]
        simp only [Ctx.mark]
        simp only [List.nil_append]
        rw [render_frame child t s (tr ++ [Ev.invoke child.name t]),
            render_frame child t [] [Ev.invoke child.name t]]
        by_cases hok : child.ok t = true
        · have hp := render_ok_preserves child ⟨t, [], []⟩ hok
          have hS : child.outSaved t = [] := hp.2
          have hT : child.outT t = t := hp.1
          rw [hok, hS, hT]
          simp only [List.nil_append, if_true]
          rw [renderList_frame rest t s (tr ++ [Ev.invoke child.name t] ++ child.events t),
              renderList_frame rest t [] ([Ev.invoke child.name t] ++ child.events t)]
          simp
        · rw [Bool.not_eq_true] at hok
          rw [hok]
          simp
      · rw [if_neg hact, if_neg hact]
        rw [renderList_frame rest t s tr, renderList_frame rest t [] []]
        simp

end

theorem render_eta (n : Node) (ctx : Ctx) :
    n.render ctx = (⟨n.outT ctx.transform, n.outSaved ctx.transform ++ ctx.saved,
                    ctx.trace ++ n.events ctx.transform⟩, n.ok ctx.transform) :=
  render_frame n ctx.transform ctx.saved ctx.trace

theorem renderList_eta (l : List Node) (ctx : Ctx) :
    renderList l ctx = (⟨listOutT l ctx.transform, listOutSaved l ctx.transform ++ ctx.saved,
                        ctx.trace ++ listEvents l ctx.transform⟩, listOk l ctx.transform) :=
  renderList_frame l ctx.transform ctx.saved ctx.trace

theorem render_ok_eq (n : Node) (ctx : Ctx) : (n.render ctx).2 = n.ok ctx.transform := by
  rw [render_eta]

theorem render_trace_eq (n : Node) (ctx : Ctx) :
    (n.render ctx).1.trace = ctx.trace ++ n.events ctx.transform := by
  rw [render_eta]

theorem render_trace_delta (n : Node) (ctx : Ctx) :
    (n.render ctx).1.trace.drop ctx.trace.length = n.events ctx.transform := by
  rw [render_trace_eq, List.drop_left]

theorem renderList_ok_eq (l : List Node) (ctx : Ctx) :
    (renderList l ctx).2 = listOk l ctx.transform := by
  rw [renderList_eta]

theorem renderList_trace_eq (l : List Node) (ctx : Ctx) :
    (renderList l ctx).1.trace = ctx.trace ++ listEvents l ctx.transform := by
  rw [renderList_eta]

theorem renderList_invoke_mem (l : List Node) : ∀ ctx : Ctx,
    (renderList l ctx).2 = true → ∀ child ∈ l, child.active = true →
    Ev.invoke child.name ctx.transform ∈ (renderList l ctx).1.trace := by
  induction l with
  | nil => intro ctx _ child hm _; exact absurd hm (List.not_mem_nil child)
  | cons c rest ih =>
      intro ctx h child hm ha
      rw [renderList_cons_eq] at h ⊢
      by_cases hact : c.active = true
      · rw [if_pos hact] at h ⊢
        by_cases hr : (c.render (ctx.mark (Ev.invoke c.name ctx.transform))).2 = true
        · rw [if_pos hr] at h ⊢
          rcases List.mem_cons.mp hm with hc | hrest
          · subst hc
            rw [renderList_trace_eq, render_trace_eq]
            simp [Ctx.mark]
          · have hp := render_ok_preserves c (ctx.mark (Ev.invoke c.name ctx.transform)) hr
            have ht : (c.render (ctx.mark (Ev.invoke c.name ctx.transform))).1.transform
                = ctx.transform := by
              rw [hp.1, Ctx.mark_transform]
            have hmem := ih _ h child hrest ha
            rw [ht] at hmem
            exact hmem
        · rw [if_neg hr] at h
          exact absurd h hr
      · rw [if_neg hact] at h ⊢
        rcases List.mem_cons.mp hm with hc | hrest
        · subst hc; exact absurd ha hact
        · exact ih ctx h child hrest ha

theorem listEvents_decomp (l : List Node) : ∀ t : AffineT, listOk l t = true →
    listEvents l t
      = (l.filter Node.active).flatMap (fun c => Ev.invoke c.name t :: c.events t) := by
  induction l with
  | nil => intro t _; simp [listEvents, renderList_nil_eq]
  | cons c rest ih =>
      intro t h
      simp only [listEvents, listOk] at h ⊢
      rw [renderList_cons_eq] at h ⊢
      by_cases hact : c.active = true
      · rw [if_pos hact] at h ⊢
        by_cases hr : (c.render ((⟨t, [], []⟩ : Ctx).mark
            (Ev.invoke c.name (Ctx.transform ⟨t, [], []⟩)))).2 = true
        · rw [if_pos hr] at h ⊢
          have hok : c.ok t = true := by rw [render_ok_eq] at hr; exact hr
          have hp := render_ok_preserves c ⟨t, [], []⟩ hok
          have hT : (c.render ((⟨t, [], []⟩ : Ctx).mark
              (Ev.invoke c.name (Ctx.transform ⟨t, [], []⟩)))).1.transform = t := by
            have := render_ok_preserves c ((⟨t, [], []⟩ : Ctx).mark
              (Ev.invoke c.name (Ctx.transform ⟨t, [], []⟩))) hr
            rw [this.1, Ctx.mark_transform]
          have htr : (c.render ((⟨t, [], []⟩ : Ctx).mark
              (Ev.invoke c.name (Ctx.transform ⟨t, [], []⟩)))).1.trace
              = [Ev.invoke c.name t] ++ c.events t := by
            rw [render_trace_eq]
            simp [Ctx.mark, Node.events]
          rw [renderList_trace_eq, hT, htr]
          have hok2 : listOk rest t = true := by
            rw [renderList_ok_eq, hT] at h; exact h
          rw [ih t hok2]
          rw [List.filter_cons, if_pos hact, List.flatMap_cons]
          simp
        · rw [if_neg hr] at h
          exact absurd h hr
      · rw [if_neg hact] at h ⊢
        rw [List.filter_cons, if_neg (by simp [hact])]
        exact ih t (by simpa [listOk] using h)

theorem mem_insertChild (c y : Node) (l : List Node) :
    y ∈ insertChild c l ↔ y = c ∨ y ∈ l := by
  induction l with
  | nil => simp [insertChild]
  | cons x rest ih =>
      simp only [insertChild]
      by_cases hle : x.sortingOrder ≤ c.sortingOrder
      · rw [if_pos hle]
        simp only [List.mem_cons, ih]
        tauto
      · rw [if_neg hle]
        simp [List.mem_cons]

theorem pairwise_insertChild (c : Node) (l : List Node)
    (hp : l.Pairwise (fun a b => a.sortingOrder ≤ b.sortingOrder)) :
    (insertChild c l).Pairwise (fun a b => a.sortingOrder ≤ b.sortingOrder) := by
  induction l with
  | nil => simp [insertChild]
  | cons x rest ih =>
      rw [List.pairwise_cons] at hp
      simp only [insertChild]
      by_cases hle : x.sortingOrder ≤ c.sortingOrder
      · rw [if_pos hle, List.pairwise_cons]
        refine ⟨fun y hy => ?_, ih hp.2⟩
        rcases (mem_insertChild c y rest).mp hy with rfl | hyr
        · exact hle
        · exact hp.1 y hyr
      · rw [if_neg hle, List.pairwise_cons]
        have hcx : c.sortingOrder ≤ x.sortingOrder := le_of_not_le hle
        refine ⟨fun y hy => ?_, ?_⟩
        · rcases List.mem_cons.mp hy with rfl | hyr
          · exact hcx
          · exact le_trans hcx (hp.1 y hyr)
        · rw [List.pairwise_cons]
          exact hp

theorem filter_key_insertChild (c : Node) (k : Int) (l : List Node)
    (hp : l.Pairwise (fun a b => a.sortingOrder ≤ b.sortingOrder)) :
    (insertChild c l).filter (fun x => x.sortingOrder == k)
      = l.filter (fun x => x.sortingOrder == k)
        ++ (if c.sortingOrder == k then [c] else []) := by
  induction l with
  | nil =>
      simp [insertChild, List.filter_cons]
  | cons x rest ih =>
      rw [List.pairwise_cons] at hp
      simp only [insertChild]
      by_cases hle : x.sortingOrder ≤ c.sortingOrder
      · rw [if_pos hle, List.filter_cons, List.filter_cons]
        by_cases hx : (x.sortingOrder == k) = true
        · rw [if_pos hx, if_pos hx, ih hp.2, List.cons_append]
        · rw [if_neg hx, if_neg hx, ih hp.2]
      · rw [if_neg hle, List.filter_cons]
        have hcx : c.sortingOrder < x.sortingOrder := not_le.mp hle
        by_cases hc : (c.sortingOrder == k) = true
        · rw [if_pos hc]
          have hck : c.sortingOrder = k := by simpa using hc
          have hnil : (x :: rest).filter (fun y => y.sortingOrder == k) = [] := by
            rw [List.filter_eq_nil_iff]
            intro a ha
            rcases List.mem_cons.mp ha with rfl | har
            · simp only [beq_iff_eq]
              omega
            · have hxa := hp.1 a har
              simp only [beq_iff_eq]
              omega
          rw [hnil, if_pos hc]
          simp
        · rw [if_neg hc, if_neg hc]
          simp

theorem buildChildren_aux (adds : List Node) : ∀ acc : List Node,
    acc.Pairwise (fun a b => a.sortingOrder ≤ b.sortingOrder) →
    (adds.foldl addChild acc).Pairwise (fun a b => a.sortingOrder ≤ b.sortingOrder) ∧
    ∀ k : Int, (adds.foldl addChild acc).filter (fun x => x.sortingOrder == k)
      = acc.filter (fun x => x.sortingOrder == k)
        ++ adds.filter (fun x => x.sortingOrder == k) := by
  induction adds with
  | nil =>
      intro acc hp
      exact ⟨hp, fun k => by simp⟩
  | cons a rest ih =>
      intro acc hp
      rw [List.foldl_cons]
      have hp' : (addChild acc a).Pairwise (fun a b => a.sortingOrder ≤ b.sortingOrder) :=
        pairwise_insertChild a acc hp
      obtain ⟨h1, h2⟩ := ih (addChild acc a) hp'
      refine ⟨h1, fun k => ?_⟩
      rw [h2 k]
      have hf : (addChild acc a).filter (fun x => x.sortingOrder == k)
          = acc.filter (fun x => x.sortingOrder == k)
            ++ (if a.sortingOrder == k then [a] else []) :=
        filter_key_insertChild a k acc hp
      rw [hf, List.filter_cons]
      by_cases ha : (a.sortingOrder == k) = true
      · rw [if_pos ha, if_pos ha]
        simp
      · rw [if_neg ha, if_neg ha]
        simp

theorem buildChildren_pairwise (adds : List Node) :
    (buildChildren adds).Pairwise (fun a b => a.sortingOrder ≤ b.sortingOrder) :=
  (buildChildren_aux adds [] List.Pairwise.nil).1

theorem buildChildren_filter_key (adds : List Node) (k : Int) :
    (buildChildren adds).filter (fun x => x.sortingOrder == k)
      = adds.filter (fun x => x.sortingOrder == k) := by
  have := (buildChildren_aux adds [] List.Pairwise.nil).2 k
  simpa [buildChildren] using this

/-- C1: refuted on the code.  The claim says `Layer.render` restores the
saved transform state on every exit path, even when a child render raises
an error.  The source wraps the children loop in plain
`ctx.save(); ...; ctx.restore();` with no `try`/`finally`, so an error
from a child skips the restore.  Concretely, an active layer bound to a
camera with one active child whose draw throws ends with the error
propagating, the transform saved in step 1 still unmatched on the stack,
and the camera transform still applied to the context. -/
theorem render_error_skips_restore :
    ((Node.layer "world" true 0 (some ⟨⟨2, 0, 0, 2, 10, 5⟩⟩)
        [Node.obj "enemy" true 0 true]).render ⟨AffineT.idT, [], []⟩).2 = false ∧
    ((Node.layer "world" true 0 (some ⟨⟨2, 0, 0, 2, 10, 5⟩⟩)
        [Node.obj "enemy" true 0 true]).render ⟨AffineT.idT, [], []⟩).1.saved
      = [AffineT.idT] ∧
    ((Node.layer "world" true 0 (some ⟨⟨2, 0, 0, 2, 10, 5⟩⟩)
        [Node.obj "enemy" true 0 true]).render ⟨AffineT.idT, [], []⟩).1.transform
      ≠ AffineT.idT := by
  refine ⟨rfl, rfl, ?_⟩
  decide

/-- C2: a layer with a bound camera whose render returns normally leaves
the context transform and the save stack exactly as they were, so a
sibling rendered next observes the transform in effect before the first
layer began: the sibling's render emits the same observations, child
transforms included, as a render taken directly from the original
context, and nothing leaks to the caller. -/
theorem render_no_transform_leak_across_siblings (nm : String) (so : Int)
    (cam : Camera) (ch : List Node) (b : Node) (ctx : Ctx)
    (hok : ((Node.layer nm true so (some cam) ch).render ctx).2 = true) :
    ((Node.layer nm true so (some cam) ch).render ctx).1.transform = ctx.transform ∧
    ((Node.layer nm true so (some cam) ch).render ctx).1.saved = ctx.saved ∧
    (b.render ((Node.layer nm true so (some cam) ch).render ctx).1).1.trace.drop
        ((Node.layer nm true so (some cam) ch).render ctx).1.trace.length
      = (b.render ctx).1.trace.drop ctx.trace.length := by
  have hp := render_ok_preserves _ ctx hok
  refine ⟨hp.1, hp.2, ?_⟩
  rw [render_trace_delta, render_trace_delta, hp.1]

/-- Witness for C2: a camera layer rendered before a screen-space sibling
on the identity context. -/
theorem render_no_transform_leak_across_siblings_witness :
    ((Node.layer "world" true 0 (some ⟨⟨2, 0, 0, 2, 10, 5⟩⟩)
        [Node.obj "p" true 0 false]).render ⟨AffineT.idT, [], []⟩).1.transform = AffineT.idT ∧
    ((Node.layer "world" true 0 (some ⟨⟨2, 0, 0, 2, 10, 5⟩⟩)
        [Node.obj "p" true 0 false]).render ⟨AffineT.idT, [], []⟩).1.saved = [] ∧
    ((Node.layer "ui" true 1000 none [Node.obj "h" true 0 false]).render
        ((Node.layer "world" true 0 (some ⟨⟨2, 0, 0, 2, 10, 5⟩⟩)
          [Node.obj "p" true 0 false]).render ⟨AffineT.idT, [], []⟩).1).1.trace.drop
        ((Node.layer "world" true 0 (some ⟨⟨2, 0, 0, 2, 10, 5⟩⟩)
          [Node.obj "p" true 0 false]).render ⟨AffineT.idT, [], []⟩).1.trace.length
      = ((Node.layer "ui" true 1000 none [Node.obj "h" true 0 false]).render
          ⟨AffineT.idT, [], []⟩).1.trace.drop ([] : List Ev).length :=
  render_no_transform_leak_across_siblings "world" 0 ⟨⟨2, 0, 0, 2, 10, 5⟩⟩
    [Node.obj "p" true 0 false] (Node.layer "ui" true 1000 none [Node.obj "h" true 0 false])
    ⟨AffineT.idT, [], []⟩ (by decide)

/-- C3: during the render of an active layer with a bound camera that
returns normally, every active direct child is invoked with the context
transform equal to the camera's computed transform composed onto the
transform in effect when the layer's render began. -/
theorem camera_transform_observed_by_children (nm : String) (so : Int)
    (cam : Camera) (children : List Node) (ctx : Ctx)
    (hok : ((Node.layer nm true so (some cam) children).render ctx).2 = true)
    (child : Node) (hm : child ∈ children) (ha : child.active = true) :
    Ev.invoke child.name (AffineT.comp ctx.transform cam.t)
      ∈ ((Node.layer nm true so (some cam) children).render ctx).1.trace := by
  rw [render_layer_eq, if_pos rfl] at hok ⊢
  by_cases hr : (renderList children (applyCamera (some cam) ctx.save)).2 = true
  · rw [if_pos hr] at hok ⊢
    simp only [Ctx.restoreT_trace]
    have htr : (applyCamera (some cam) ctx.save).transform
        = AffineT.comp ctx.transform cam.t := rfl
    have hmem := renderList_invoke_mem children (applyCamera (some cam) ctx.save) hr child hm ha
    rw [htr] at hmem
    exact hmem
  · rw [if_neg hr] at hok
    exact absurd hok hr

/-- Witness for C3: a world layer with two active children on the
identity context; the second child is picked as the member. -/
theorem camera_transform_observed_by_children_witness :
    Ev.invoke (Node.obj "tile" true 1 false).name
        (AffineT.comp AffineT.idT (⟨2, 0, 0, 2, 10, 5⟩ : AffineT))
      ∈ ((Node.layer "world" true 0 (some ⟨⟨2, 0, 0, 2, 10, 5⟩⟩)
          [Node.obj "player" true 0 false, Node.obj "tile" true 1 false]).render
          ⟨AffineT.idT, [], []⟩).1.trace :=
  camera_transform_observed_by_children "world" 0 ⟨⟨2, 0, 0, 2, 10, 5⟩⟩
    [Node.obj "player" true 0 false, Node.obj "tile" true 1 false] ⟨AffineT.idT, [], []⟩
    (by decide) (Node.obj "tile" true 1 false) (by simp) rfl

/-- C4: a `Layer` whose `active` flag is `false` renders as a complete
no-op: the context comes back unchanged — no draw invocations on the
trace, no save, no camera transform, no restore — whatever the subtree
contains, and the call returns normally. -/
theorem render_inactive_layer_noop (nm : String) (so : Int) (cam : Option Camera)
    (children : List Node) (ctx : Ctx) :
    (Node.layer nm false so cam children).render ctx = (ctx, true) := by
  rw [render_layer_eq, if_neg (by simp)]

/-- C5: rendering a sequence of active screen-space layers (camera =
`none`) whose children's draws complete produces no net change to the
context transform: identity in, identity out. -/
theorem screen_layers_net_transform_id (ls : List Node) (ctx : Ctx)
    (_hscreen : ∀ l ∈ ls, ∃ nm so ch, l = Node.layer nm true so none ch)
    (hok : (renderList ls ctx).2 = true) :
    (renderList ls ctx).1.transform = ctx.transform :=
  (renderList_ok_preserves ls ctx hok).1

/-- Witness for C5: one screen-space layer with one drawing child,
rendered on the identity context. -/
theorem screen_layers_net_transform_id_witness :
    (renderList [Node.layer "ui" true 0 none [Node.obj "hud" true 0 false]]
        ⟨AffineT.idT, [], []⟩).1.transform = AffineT.idT :=
  screen_layers_net_transform_id
    [Node.layer "ui" true 0 none [Node.obj "hud" true 0 false]] ⟨AffineT.idT, [], []⟩
    (by
      intro l hl
      rw [List.mem_singleton] at hl
      exact ⟨"ui", 0, [Node.obj "hud" true 0 false], hl⟩)
    (by decide)

/-- C6: the children collection produced by repeated `addChild` is sorted
ascending by `sortingOrder`, with equal keys kept in insertion order
(filtering any key class gives the insertion sequence), and a children
loop that returns normally invokes exactly the active children, once
each, in collection order — an inactive child contributes nothing while
traversal continues with the rest. -/
theorem children_traversal_order_and_activation (adds : List Node) (ctx : Ctx) (k : Int)
    (hok : (renderList (buildChildren adds) ctx).2 = true) :
    (buildChildren adds).Pairwise (fun a b => a.sortingOrder ≤ b.sortingOrder) ∧
    (buildChildren adds).filter (fun x => x.sortingOrder == k)
      = adds.filter (fun x => x.sortingOrder == k) ∧
    (renderList (buildChildren adds) ctx).1.trace
      = ctx.trace
        ++ ((buildChildren adds).filter Node.active).flatMap
             (fun c => Ev.invoke c.name ctx.transform :: c.events ctx.transform) := by
  refine ⟨buildChildren_pairwise adds, buildChildren_filter_key adds k, ?_⟩
  rw [renderList_trace_eq]
  rw [listEvents_decomp _ _ (by rw [← renderList_ok_eq]; exact hok)]

/-- Witness for C6: four additions with duplicate keys and one inactive
child, traversed on the identity context with key class 1 checked. -/
theorem children_traversal_order_and_activation_witness :
    (buildChildren [Node.obj "b" true 1 false, Node.obj "a" true 0 false,
        Node.obj "c" true 1 false, Node.obj "d" false 0 false]).Pairwise
      (fun a b => a.sortingOrder ≤ b.sortingOrder) ∧
    (buildChildren [Node.obj "b" true 1 false, Node.obj "a" true 0 false,
        Node.obj "c" true 1 false, Node.obj "d" false 0 false]).filter
        (fun x => x.sortingOrder == (1 : Int))
      = [Node.obj "b" true 1 false, Node.obj "a" true 0 false,
          Node.obj "c" true 1 false, Node.obj "d" false 0 false].filter
          (fun x => x.sortingOrder == (1 : Int)) ∧
    (renderList (buildChildren [Node.obj "b" true 1 false, Node.obj "a" true 0 false,
        Node.obj "c" true 1 false, Node.obj "d" false 0 false])
        ⟨AffineT.idT, [], []⟩).1.trace
      = ([] : List Ev)
        ++ ((buildChildren [Node.obj "b" true 1 false, Node.obj "a" true 0 false,
              Node.obj "c" true 1 false, Node.obj "d" false 0 false]).filter
              Node.active).flatMap
             (fun c => Ev.invoke c.name AffineT.idT :: c.events AffineT.idT) :=
  children_traversal_order_and_activation
    [Node.obj "b" true 1 false, Node.obj "a" true 0 false,
      Node.obj "c" true 1 false, Node.obj "d" false 0 false]
    ⟨AffineT.idT, [], []⟩ 1 (by decide)

/-- C7: rendering the same tree twice in succession with no state change
in between (the tree is a pure value and `render` returns only the
context) yields two identical traversals: the second call also returns
normally and appends exactly the observation sequence — same order, same
per-node transforms — that the first call appended. -/
theorem render_idempotent_traversal (n : Node) (ctx : Ctx)
    (hok : (n.render ctx).2 = true) :
    (n.render (n.render ctx).1).2 = true ∧
    (n.render (n.render ctx).1).1.trace.drop (n.render ctx).1.trace.length
      = (n.render ctx).1.trace.drop ctx.trace.length := by
  have hp := render_ok_preserves n ctx hok
  constructor
  · rw [render_ok_eq, hp.1, ← render_ok_eq]
    exact hok
  · rw [render_trace_delta, render_trace_delta, hp.1]

/-- Witness for C7: a world layer over two children rendered twice from
the identity context. -/
theorem render_idempotent_traversal_witness :
    ((Node.layer "world" true 0 (some ⟨⟨2, 0, 0, 2, 10, 5⟩⟩)
        [Node.obj "p" true 0 false, Node.obj "q" true 1 false]).render
        ((Node.layer "world" true 0 (some ⟨⟨2, 0, 0, 2, 10, 5⟩⟩)
          [Node.obj "p" true 0 false, Node.obj "q" true 1 false]).render
          ⟨AffineT.idT, [], []⟩).1).2 = true ∧
    ((Node.layer "world" true 0 (some ⟨⟨2, 0, 0, 2, 10, 5⟩⟩)
        [Node.obj "p" true 0 false, Node.obj "q" true 1 false]).render
        ((Node.layer "world" true 0 (some ⟨⟨2, 0, 0, 2, 10, 5⟩⟩)
          [Node.obj "p" true 0 false, Node.obj "q" true 1 false]).render
          ⟨AffineT.idT, [], []⟩).1).1.trace.drop
        ((Node.layer "world" true 0 (some ⟨⟨2, 0, 0, 2, 10, 5⟩⟩)
          [Node.obj "p" true 0 false, Node.obj "q" true 1 false]).render
          ⟨AffineT.idT, [], []⟩).1.trace.length
      = ((Node.layer "world" true 0 (some ⟨⟨2, 0, 0, 2, 10, 5⟩⟩)
          [Node.obj "p" true 0 false, Node.obj "q" true 1 false]).render
          ⟨AffineT.idT, [], []⟩).1.trace.drop ([] : List Ev).length :=
  render_idempotent_traversal
    (Node.layer "world" true 0 (some ⟨⟨2, 0, 0, 2, 10, 5⟩⟩)
      [Node.obj "p" true 0 false, Node.obj "q" true 1 false])
    ⟨AffineT.idT, [], []⟩ (by decide)

/-- C8: on any `Layer`, writing the `camera` property and reading it back
returns exactly the written value (a `Camera` or `none`), and the setter
changes no other field: name, active flag, sortingOrder and children are
untouched. -/
theorem camera_set_get_roundtrip (nm : String) (act : Bool) (so : Int)
    (c0 v : Option Camera) (ch : List Node) :
    ((Node.layer nm act so c0 ch).setCamera v).camera = v ∧
    ((Node.layer nm act so c0 ch).setCamera v).name = (Node.layer nm act so c0 ch).name ∧
    ((Node.layer nm act so c0 ch).setCamera v).active = (Node.layer nm act so c0 ch).active ∧
    ((Node.layer nm act so c0 ch).setCamera v).sortingOrder
      = (Node.layer nm act so c0 ch).sortingOrder ∧
    ((Node.layer nm act so c0 ch).setCamera v).childrenOf
      = (Node.layer nm act so c0 ch).childrenOf :=
  ⟨rfl, rfl, rfl, rfl, rfl⟩

/-- C9: `Layer.onRender` is a no-op for every layer and every context: it
returns the receiver and the context unchanged, so it draws nothing (the
trace is untouched) and mutates neither the context nor the layer. -/
theorem onRender_noop (l : Node) (ctx : Ctx) :
    l.onRender ctx = (l, ctx) ∧ (l.onRender ctx).2.trace = ctx.trace :=
  ⟨rfl, rfl⟩

/-- C10: constructing a `Layer` with the camera argument omitted yields,
for every name, a layer whose `camera` property is `none` (screen-space
mode), identical to passing `none` explicitly. -/
theorem constructor_default_camera_none (name : String) :
    (mkLayerOmitted name).camera = none ∧ mkLayerOmitted name = mkLayer name none :=
  ⟨rfl, rfl⟩

end Lite2D
